import Mathlib

/-!
Verification development for the image-metadata-editor tool (`main.go`).

The program synchronizes JPEG captions with a CSV sidecar file (`bilder.csv`).
We embed the core logic shallowly: Go strings become `List Char`, fallible
operations become `Except String`, and the external filesystem / EXIF library
calls become explicit oracle parameters.  Each definition mirrors the Go
function of the same name.
-/

/-- Convert a Lean string literal to the `List Char` representation used
throughout the development. -/
def strL (s : String) : List Char := s.toList

/-! ### CSV codec: `encodeCSVField`, `csvWriter.Write`, `parseCSVLine` -/

/-- Embeds `strings.ReplaceAll(field, "\"", "\"\"")` from `encodeCSVField`:
every double-quote character is doubled (the pattern is a single character,
so `ReplaceAll` acts character-wise). -/
def escapeQuotes : List Char → List Char
  | [] => []
  | c :: rest => if c = '"' then '"' :: '"' :: escapeQuotes rest else c :: escapeQuotes rest

/-- Embeds `strings.ContainsAny(field, "\",\n\r")`: does the field contain a
double quote, comma, newline or carriage return? -/
def containsSpecial (field : List Char) : Bool :=
  field.any (fun c => c = '"' || c = ',' || c = '\n' || c = '\r')

/-- Embeds Go `encodeCSVField`: quote (and double internal quotes) exactly
when the field contains one of `"`, `,`, `\n`, `\r`; otherwise verbatim. -/
def encodeCSVField (field : List Char) : List Char :=
  if containsSpecial field then '"' :: escapeQuotes field ++ ['"'] else field

/-- Loop body of Go `csvWriter.Write`: a comma before every field except the
first, each field encoded, and a final newline.  The boolean tracks the Go
loop's `i > 0` test. -/
def writeRecordAux : List (List Char) → Bool → List Char
  | [], _ => ['\n']
  | f :: rest, first => (if first then [] else [',']) ++ encodeCSVField f ++ writeRecordAux rest false

/-- Embeds Go `csvWriter.Write`: the bytes appended to the output for one
record. -/
def writeRecord (record : List (List Char)) : List Char :=
  writeRecordAux record true

/-- The body of an encoded record without the trailing newline: fields
encoded and joined with commas.  Used to state how `writeRecord` decomposes. -/
def encodeBody : List (List Char) → List Char
  | [] => []
  | [f] => encodeCSVField f
  | f :: rest => encodeCSVField f ++ ',' :: encodeBody rest

/-- Decidable equality for `Except`, so concrete runs of the codec can be
checked by `decide`. -/
instance {ε α : Type} [DecidableEq ε] [DecidableEq α] : DecidableEq (Except ε α)
  | .error e, .error f =>
    if h : e = f then .isTrue (by rw [h]) else .isFalse (by intro q; cases q; exact h rfl)
  | .error _, .ok _ => .isFalse (by intro q; cases q)
  | .ok _, .error _ => .isFalse (by intro q; cases q)
  | .ok a, .ok b =>
    if h : a = b then .isTrue (by rw [h]) else .isFalse (by intro q; cases q; exact h rfl)

/-- Embeds Go `parseCSVLine`'s scanning loop.  `inQ` is the `inQuotes` flag,
`field` the current field accumulator, `fields` the fields produced so far.
A quote while inside quotes followed by another quote emits one literal quote
and consumes both (the Go `i++` lookahead); otherwise a quote toggles the
flag.  A comma outside quotes ends the field.  At end of line an open quote
is a malformed-record error, otherwise the last field is appended.  The
single-character case is the general case with an empty tail (the Go
lookahead `i+1 < len(line)` is false there); it is split out so the
recursion is structural. -/
def parseAux : List Char → Bool → List Char → List (List Char) → Except String (List (List Char))
  | [], inQ, field, fields =>
    if inQ then .error "unterminated quoted field" else .ok (fields ++ [field])
  | [c], inQ, field, fields =>
    if c = '"' then
      if inQ then parseAux [] false field fields
      else parseAux [] true field fields
    else if c = ',' then
      if inQ then parseAux [] inQ (field ++ [c]) fields
      else parseAux [] false [] (fields ++ [field])
    else parseAux [] inQ (field ++ [c]) fields
  | c :: c2 :: rest, inQ, field, fields =>
    if c = '"' then
      if inQ then
        if c2 = '"' then parseAux rest true (field ++ [c2]) fields
        else parseAux (c2 :: rest) false field fields
      else parseAux (c2 :: rest) true field fields
    else if c = ',' then
      if inQ then parseAux (c2 :: rest) inQ (field ++ [c]) fields
      else parseAux (c2 :: rest) false [] (fields ++ [field])
    else parseAux (c2 :: rest) inQ (field ++ [c]) fields

/-- Embeds Go `parseCSVLine`. -/
def parseCSVLine (line : List Char) : Except String (List (List Char)) :=
  parseAux line false [] []

/-- The value of the `inQuotes` flag after scanning the whole line, following
exactly the flag transitions of `parseCSVLine`'s loop. -/
def scanInQuotes : List Char → Bool → Bool
  | [], inQ => inQ
  | [c], inQ =>
    if c = '"' then
      if inQ then false else true
    else inQ
  | c :: c2 :: rest, inQ =>
    if c = '"' then
      if inQ then
        if c2 = '"' then scanInQuotes rest true
        else scanInQuotes (c2 :: rest) false
      else scanInQuotes (c2 :: rest) true
    else scanInQuotes (c2 :: rest) inQ

example : parseCSVLine (strL "a,b") = .ok [strL "a", strL "b"] := by decide
example : parseCSVLine (strL "a,\"b") = .error "unterminated quoted field" := by decide
example : parseCSVLine [] = .ok [[]] := by decide
example : parseCSVLine (strL "\"a,\"\"b\"\"\"") = .ok [strL "a,\"b\""] := by decide
example : encodeCSVField (strL "a,b") = strL "\"a,b\"" := by decide
example : writeRecord [strL "x", strL "y"] = strL "x,y\n" := by decide

/-! ### Line reader: `bufio.ScanLines` plus `csvReader.Read`'s `\r` strip -/

/-- Split on `'\n'` keeping every (possibly empty) component, including a
final empty component when the input ends with a newline. -/
def splitLinesRaw : List Char → List (List Char)
  | [] => [[]]
  | c :: rest =>
    if c = '\n' then [] :: splitLinesRaw rest
    else
      match splitLinesRaw rest with
      | t :: ts => (c :: t) :: ts
      | [] => [[c]]

/-- `bufio.ScanLines` emits no token for empty data at end of input: a final
empty component (input empty or ending in `'\n'`) produces no line. -/
def trimFinalEmptyLine (ls : List (List Char)) : List (List Char) :=
  match ls.getLast? with
  | some [] => ls.dropLast
  | _ => ls

/-- `dropCR` from `bufio.ScanLines` (also the `strings.TrimSuffix(line, "\r")`
in `csvReader.Read`): remove one trailing carriage return. -/
def dropCR (l : List Char) : List Char :=
  match l.reverse with
  | c :: rest => if c = '\r' then rest.reverse else l
  | [] => l

/-- The scanner's maximum token size, set by `newCSVReader` via
`scanner.Buffer(make([]byte, 0, 64*1024), maxScanTokenSize)`. -/
def maxScanTokenSize : Nat := 1024 * 1024

/-- The per-line size bound enforced by `bufio.Scanner`: once the internal
buffer (capped at `maxScanTokenSize`) fills without a newline among its
bytes, `Scan` fails with `bufio.ErrTooLong`.  A physical line is therefore
tokenized only if its content before the terminating newline (carriage
return included, since `dropCR` runs after tokenization) is shorter than
`maxScanTokenSize`; tokens before the first over-long line are still
yielded, then the scanner reports the error. -/
def boundTokens : List (List Char) → List (List Char) × Option String
  | [] => ([], none)
  | t :: ts =>
    if t.length ≥ maxScanTokenSize then ([], some "bufio.Scanner: token too long")
    else
      let r := boundTokens ts
      (dropCR t :: r.1, r.2)

/-- The tokens produced by the `bufio.Scanner` with `ScanLines` and the 1MB
buffer bound of `newCSVReader` on the given input, together with the
scanner error, if any. -/
def scanTokens (s : List Char) : List (List Char) × Option String :=
  boundTokens (trimFinalEmptyLine (splitLinesRaw s))

/-- The physical lines handed to `parseCSVLine` by `csvReader.Read` (scanner
tokens with the reader's own trailing-`\r` strip applied), and the scanner
error that the `Read` after them returns instead of `io.EOF`, if any. -/
def readerLines (s : List Char) : List (List Char) × Option String :=
  ((scanTokens s).1.map dropCR, (scanTokens s).2)

/-- The result of the first `csvReader.Read` call on the given input: the
decode half of the round-trip (split into physical lines under the scanner
bound, strip `\r`, parse one line).  `EOF` models `io.EOF` on empty
input; a scanner failure on the first line is returned as that error. -/
def firstRecord (s : List Char) : Except String (List (List Char)) :=
  match readerLines s with
  | ([], some e) => .error e
  | ([], none) => .error "EOF"
  | (l :: _, _) => parseCSVLine l

example : readerLines (strL "a,b\nc\r\n") = ([strL "a,b", strL "c"], none) := by decide
example : firstRecord (writeRecord [strL "a,\"b"]) = .ok [strL "a,\"b"] := by decide
example : firstRecord (writeRecord [strL "a\rb"]) = .ok [strL "a\rb"] := by decide
example : firstRecord (writeRecord [['\n']]) = .error "unterminated quoted field" := by decide

/-! ### String helpers: `strings.TrimSpace`, `strings.EqualFold`, `strings.ToLower` -/

/-- Go `unicode.IsSpace` restricted to the code points it recognizes:
`\t`, `\n`, `\v`, `\f`, `\r`, space, NEL, NBSP and the Unicode
`White_Space` code points. -/
def goIsSpace (c : Char) : Bool :=
  c = ' ' || c = '\t' || c = '\n' || c.toNat = 11 || c.toNat = 12 || c = '\r' ||
  c.toNat = 133 || c.toNat = 160 || c.toNat = 0x1680 ||
  (0x2000 ≤ c.toNat && c.toNat ≤ 0x200A) ||
  c.toNat = 0x2028 || c.toNat = 0x2029 || c.toNat = 0x202F || c.toNat = 0x205F ||
  c.toNat = 0x3000

/-- Embeds Go `strings.TrimSpace`: drop whitespace from both ends. -/
def trimSpace (l : List Char) : List Char :=
  ((l.dropWhile goIsSpace).reverse.dropWhile goIsSpace).reverse

/-- One step of Go's simple case folding as used by `strings.EqualFold` and
`strings.ToLower` on the inputs this program compares: ASCII letters are
lowered, and the two non-ASCII code points that simple-fold onto ASCII
letters (KELVIN SIGN to `k`, LATIN SMALL LETTER LONG S to `s`) are mapped
down.  Folding between non-ASCII letters is not exercised by the program's
fixed comparands (`filename`, `title`, `.jpg`, `.jpeg`, `bilder.csv`). -/
def foldChar (c : Char) : Char :=
  let c := if c.toNat = 0x212A then 'k' else if c.toNat = 0x17F then 's' else c
  if 'A' ≤ c ∧ c ≤ 'Z' then Char.ofNat (c.toNat + 32) else c

/-- Embeds Go `strings.EqualFold`: equal rune count and pairwise simple-fold
equality. -/
def equalFold (a b : List Char) : Bool :=
  a.map foldChar = b.map foldChar

/-- Embeds Go `headerIndex`: the first column whose trimmed value matches
`name` case-insensitively; `none` models the Go return value `-1`. -/
def headerIndex : List (List Char) → List Char → Option Nat
  | [], _ => none
  | v :: rest, name =>
    if equalFold (trimSpace v) name then some 0
    else (headerIndex rest name).map (fun i => i + 1)

/-! ### Paths: `filepath.Ext`, `filepath.Clean`, `filepath.Join`, `isJPEG` -/

/-- Scan of the reversed path used to embed `filepath.Ext`: walk backwards
until a path separator (no extension) or a dot (extension starts there). -/
def extFromRev : List Char → List Char → List Char
  | [], _ => []
  | c :: rest, acc =>
    if c = '/' then []
    else if c = '.' then c :: acc
    else extFromRev rest (c :: acc)

/-- Embeds Go `filepath.Ext`: the suffix starting at the final dot of the
last path element, empty if there is no dot. -/
def filepathExt (p : List Char) : List Char :=
  extFromRev p.reverse []

/-- Embeds Go `isJPEG`: the lower-cased extension is `.jpg` or `.jpeg`. -/
def isJPEG (name : List Char) : Bool :=
  let ext := (filepathExt name).map foldChar
  ext = strL ".jpg" || ext = strL ".jpeg"

/-- Split on `'/'` keeping empty components (helper for `filepath.Clean`). -/
def splitSlash : List Char → List (List Char)
  | [] => [[]]
  | c :: rest =>
    if c = '/' then [] :: splitSlash rest
    else
      match splitSlash rest with
      | t :: ts => (c :: t) :: ts
      | [] => [[c]]

/-- Component processing of Go `filepath.Clean` (per its documentation):
drop empty and `.` components; `..` pops the previous component, except that
it is dropped at the root of a rooted path and kept when a relative path has
nothing left to pop.  `acc` holds the processed components in reverse. -/
def cleanElems (rooted : Bool) : List (List Char) → List (List Char) → List (List Char)
  | acc, [] => acc.reverse
  | acc, e :: rest =>
    if e = [] ∨ e = ['.'] then cleanElems rooted acc rest
    else if e = ['.', '.'] then
      match acc with
      | top :: acc2 =>
        if top = ['.', '.'] then cleanElems rooted (e :: acc) rest
        else cleanElems rooted acc2 rest
      | [] => if rooted then cleanElems rooted [] rest else cleanElems rooted [e] rest
    else cleanElems rooted (e :: acc) rest

/-- Embeds Go `filepath.Clean` on Unix paths. -/
def pathClean (p : List Char) : List Char :=
  if p = [] then ['.']
  else
    let rooted := p.head? = some '/'
    let elems := cleanElems rooted [] (splitSlash p)
    let joined := (if rooted then ['/'] else []) ++ List.intercalate ['/'] elems
    if joined = [] then ['.'] else joined

/-- Embeds Go `filepath.IsAbs` on Unix: the path starts with a separator. -/
def isAbs (p : List Char) : Bool :=
  p.head? = some '/'

/-- Embeds Go `filepath.Join(a, b)`: empty leading elements are skipped and
the slash-joined rest is cleaned; all-empty input yields the empty path. -/
def filepathJoin (a b : List Char) : List Char :=
  if a = [] then (if b = [] then [] else pathClean b)
  else pathClean (a ++ '/' :: b)

/-- The path the Applier hands to the metadata collaborator (`main.go`
lines 145-148): the trimmed filename itself when absolute, otherwise joined
to the target directory. -/
def resolvePath (dir filename : List Char) : List Char :=
  if isAbs filename then filename else filepathJoin dir filename

example : pathClean (strL "a/./b/../c/") = strL "a/c" := by decide
example : pathClean (strL "/../x") = strL "/x" := by decide
example : pathClean (strL "a/../..") = strL ".." := by decide
example : filepathJoin (strL "d") (strL "a.jpg") = strL "d/a.jpg" := by decide
example : filepathExt (strL "x/a.b.JPG") = strL ".JPG" := by decide
example : isJPEG (strL "photo.JpEg") = true := by decide
example : isJPEG (strL "photo.jpg.txt") = false := by decide

/-! ### Title Applier: `applyTitlesFromCSV` (`main.go` lines 105-155)

The metadata collaborator's `upsertTitle` is an oracle parameter; the result
of the row loop is the ordered list of write-caption calls made (path and
title of each call, including a final failing one) together with the error
that aborted the loop, if any. -/

/-- The row loop of Go `applyTitlesFromCSV` (lines 125-152), operating on the
remaining physical lines of the sidecar file.  A decode failure aborts with a
`read record` error; a row whose field count does not reach the filename
column is skipped; a row whose trimmed filename is empty is skipped; otherwise
the title (the raw field when present, else empty) is written to the resolved
path, and a collaborator failure aborts with an `apply title for` error. -/
def applyRows (upsert : List Char → List Char → Except String Unit)
    (dir : List Char) (filenameIdx titleIdx : Nat) :
    List (List Char) → List (List Char × List Char) × Option String
  | [] => ([], none)
  | line :: rest =>
    match parseCSVLine line with
    | .error e => ([], some ("read record: " ++ e))
    | .ok record =>
      if record.length ≤ filenameIdx then applyRows upsert dir filenameIdx titleIdx rest
      else
        let filename := trimSpace (record.getD filenameIdx [])
        if filename = [] then applyRows upsert dir filenameIdx titleIdx rest
        else
          let title := if titleIdx < record.length then record.getD titleIdx [] else []
          let path := resolvePath dir filename
          match upsert path title with
          | .error e => ([(path, title)], some ("apply title for " ++ String.mk filename ++ ": " ++ e))
          | .ok _ =>
            let r := applyRows upsert dir filenameIdx titleIdx rest
            ((path, title) :: r.1, r.2)

/-- Go `applyTitlesFromCSV` after the sidecar file has been opened, operating
on the physical lines the reader yields: read the header, locate the
`filename` and `title` columns, then run the row loop. -/
def applyTitlesLines (upsert : List Char → List Char → Except String Unit)
    (dir : List Char) (lines : List (List Char)) :
    List (List Char × List Char) × Option String :=
  match lines with
  | [] => ([], some "read header: EOF")
  | headerLine :: rest =>
    match parseCSVLine headerLine with
    | .error e => ([], some ("read header: " ++ e))
    | .ok header =>
      match headerIndex header (strL "filename"), headerIndex header (strL "title") with
      | some filenameIdx, some titleIdx => applyRows upsert dir filenameIdx titleIdx rest
      | _, _ => ([], some "csv must include filename and title columns")

/-- Embeds Go `applyTitlesFromCSV`: the directory is cleaned, the sidecar
content is split into physical lines by the bounded reader, and the table is
applied.  Opening the file is modeled by passing its content.  A scanner
error (an over-long line) surfaces at the `Read` that would have produced
that line: as a `read header` error when no line was yielded, and as a
`read record` error after the yielded lines when the loop reaches it
without aborting earlier. -/
def applyTitlesFromCSV (upsert : List Char → List Char → Except String Unit)
    (dir content : List Char) : List (List Char × List Char) × Option String :=
  match readerLines content with
  | (lines, none) => applyTitlesLines upsert (pathClean dir) lines
  | ([], some e) => ([], some ("read header: " ++ e))
  | (lines, some e) =>
    match applyTitlesLines upsert (pathClean dir) lines with
    | (calls, some err) => (calls, some err)
    | (calls, none) => (calls, some ("read record: " ++ e))

example :
    applyTitlesFromCSV (fun _ _ => .ok ()) (strL "d")
      (strL "filename,title\na.jpg,Sunset\n,skipme\n")
    = ([(strL "d/a.jpg", strL "Sunset")], none) := by decide

example :
    applyTitlesFromCSV (fun _ _ => .ok ()) (strL "d") (strL "x,y\na,b\n")
    = ([], some "csv must include filename and title columns") := by decide

/-! ### Directory Scanner: `scanDirectory` (`main.go` lines 54-103) -/

/-- A directory entry as `scanDirectory` observes it: its name and the
results of `entry.IsDir()` and `entry.Type().IsRegular()`. -/
structure DirEntry where
  name : List Char
  dirFlag : Bool
  regular : Bool
deriving DecidableEq

/-- The fixed sidecar filename, Go constant `csvFilename`. -/
def csvFilename : List Char := strL "bilder.csv"

/-- The entry loop of Go `scanDirectory` (lines 79-97): skip directories and
non-regular entries, skip the sidecar file (case-insensitively) and
non-JPEG names; read each remaining entry's caption via the collaborator
oracle `readCap` (a failure aborts the scan) and emit one CSV row. -/
def scanRows (readCap : List Char → Except String (List Char)) (absDir : List Char) :
    List DirEntry → Except String (List Char)
  | [] => .ok []
  | e :: rest =>
    if e.dirFlag || !e.regular then scanRows readCap absDir rest
    else if equalFold e.name csvFilename || !isJPEG e.name then scanRows readCap absDir rest
    else
      match readCap (filepathJoin absDir e.name) with
      | .error err => .error err
      | .ok title => (scanRows readCap absDir rest).map (fun tail => writeRecord [e.name, title] ++ tail)

/-- Embeds Go `scanDirectory`: the content of the sidecar file after a scan
of the listed entries — the header row followed by the emitted rows.  The
filesystem is abstracted: `entries` is the directory listing, `absDir` the
absolute directory path, and file creation and flushing are modeled by
returning the final content. -/
def scanDirectory (readCap : List Char → Except String (List Char))
    (absDir : List Char) (entries : List DirEntry) : Except String (List Char) :=
  (scanRows readCap absDir entries).map
    (fun rows => writeRecord [strL "filename", strL "title"] ++ rows)

/-- A qualifying entry per the scan loop: regular, not a directory, not the
sidecar file (case-insensitively), with a `.jpg`/`.jpeg` extension. -/
def qualifies (e : DirEntry) : Bool :=
  !e.dirFlag && e.regular && !equalFold e.name csvFilename && isJPEG e.name

example :
    scanDirectory
      (fun p => if p = strL "/d/a.JPG" then .ok (strL "Sun,set") else .ok [])
      (strL "/d")
      [⟨strL "a.JPG", false, true⟩, ⟨strL "notes.txt", false, true⟩,
       ⟨strL "sub", true, false⟩, ⟨strL "BILDER.CSV", false, true⟩]
    = .ok (strL "filename,title\na.JPG,\"Sun,set\"\n") := by decide

/-! ### Metadata collaborator read path: `readTitle` (`main.go` lines 275-319) -/

/-- The shapes the EXIF tag value can take in `readTitle`'s type switch:
`string`, `[]string`, `[]byte`, `[][]byte`, or anything else.  Bytes are
modeled as the characters Go's `string(...)` conversion yields. -/
inductive ExifValue where
  | str (s : List Char)
  | strList (l : List (List Char))
  | bytes (b : List Char)
  | bytesList (l : List (List Char))
  | otherKind
deriving DecidableEq

/-- The collaborator-side results `readTitle` consumes for one file:
`mp.ParseFile` (container parse), `sl.Exif()` (EXIF block extraction) and
`rootIfd.FindTagWithName("ImageDescription")` with each result's `Value()`.
The underlying library signals an absent EXIF block as an error from
`Exif()` (`exif.ErrNoExif`). -/
structure JpegFile where
  container : Except String Unit
  exifRoot : Except String Unit
  findTag : Except String (List (Except String ExifValue))
deriving DecidableEq

/-- Embeds Go `readTitle`: container and EXIF errors are propagated with
context; a tag-lookup error, no results, an unreadable value, or an
unhandled value shape all yield an empty title with no error; the four
handled shapes yield their (first) text. -/
def readTitle (j : JpegFile) : Except String (List Char) :=
  match j.container with
  | .error e => .error ("parse JPEG: " ++ e)
  | .ok _ =>
    match j.exifRoot with
    | .error e => .error ("parse EXIF: " ++ e)
    | .ok _ =>
      match j.findTag with
      | .error _ => .ok []
      | .ok [] => .ok []
      | .ok (v0 :: _) =>
        match v0 with
        | .error _ => .ok []
        | .ok (.str s) => .ok s
        | .ok (.strList []) => .ok []
        | .ok (.strList (s :: _)) => .ok s
        | .ok (.bytes b) => .ok b
        | .ok (.bytesList []) => .ok []
        | .ok (.bytesList (b :: _)) => .ok b
        | .ok .otherKind => .ok []

example :
    readTitle ⟨.ok (), .ok (), .ok [.ok (.strList [strL "cap", strL "x"])]⟩
    = .ok (strL "cap") := by decide
example :
    readTitle ⟨.error "bad soi", .ok (), .ok []⟩ = .error "parse JPEG: bad soi" := by decide

/-! ### Codec lemmas -/

theorem parseAux_quote_pair (rest : List Char) (field fields) :
    parseAux ('"' :: '"' :: rest) true field fields = parseAux rest true (field ++ ['"']) fields := rfl

theorem parseAux_quote_open (l : List Char) (field fields) :
    parseAux ('"' :: l) false field fields = parseAux l true field fields := by
  cases l <;> rfl

theorem parseAux_quote_close (c2 : Char) (rest : List Char) (field fields) (h : c2 ≠ '"') :
    parseAux ('"' :: c2 :: rest) true field fields = parseAux (c2 :: rest) false field fields := by
  simp [parseAux, h]

theorem parseAux_comma (l : List Char) (field fields) :
    parseAux (',' :: l) false field fields = parseAux l false [] (fields ++ [field]) := by
  cases l <;> simp [parseAux]

theorem parseAux_comma_inQ (l : List Char) (field fields) :
    parseAux (',' :: l) true field fields = parseAux l true (field ++ [',']) fields := by
  cases l <;> simp [parseAux]

theorem parseAux_other (c : Char) (l : List Char) (inQ : Bool) (field fields)
    (hq : c ≠ '"') (hc : c ≠ ',') :
    parseAux (c :: l) inQ field fields = parseAux l inQ (field ++ [c]) fields := by
  cases l <;> simp [parseAux, hq, hc]

/-- Scanning a quote-free, comma-free segment outside quotes appends it to
the current field. -/
theorem parseAux_plain (t : List Char) (rest' : List Char) (field fields)
    (h : ∀ c ∈ t, c ≠ '"' ∧ c ≠ ',') :
    parseAux (t ++ rest') false field fields = parseAux rest' false (field ++ t) fields := by
  induction t generalizing field with
  | nil => simp
  | cons c t ih =>
    obtain ⟨hq, hc⟩ := h c (by simp)
    rw [List.cons_append, parseAux_other c _ _ _ _ hq hc,
      ih _ (fun d hd => h d (List.mem_cons_of_mem _ hd))]
    simp

/-- Scanning escaped field content inside quotes, followed by the closing
quote, appends the original content to the current field and leaves the
quoted state, provided what follows the closing quote is not another
quote. -/
theorem parseAux_quoted (t : List Char) (rest' : List Char) (field fields)
    (h : rest'.head? ≠ some '"') :
    parseAux (escapeQuotes t ++ '"' :: rest') true field fields
    = parseAux rest' false (field ++ t) fields := by
  induction t generalizing field with
  | nil =>
    simp only [escapeQuotes, List.nil_append, List.append_nil]
    cases rest' with
    | nil => rfl
    | cons c2 r2 =>
      have hc2 : c2 ≠ '"' := by simpa using h
      exact parseAux_quote_close c2 r2 field fields hc2
  | cons c t ih =>
    by_cases hq : c = '"'
    · subst hq
      have hesc : escapeQuotes ('"' :: t) = '"' :: '"' :: escapeQuotes t := by
        simp [escapeQuotes]
      rw [hesc, List.cons_append, List.cons_append, parseAux_quote_pair, ih]
      simp
    · simp only [escapeQuotes, if_neg hq, List.cons_append]
      by_cases hc : c = ','
      · subst hc
        rw [parseAux_comma_inQ, ih]
        simp
      · rw [parseAux_other c _ _ _ _ hq hc, ih]
        simp

/-- A field that does not need quoting contains no quote and no comma. -/
theorem no_special_chars {t : List Char} (hs : containsSpecial t = false) :
    ∀ c ∈ t, c ≠ '"' ∧ c ≠ ',' := by
  intro c hc
  have := List.any_eq_false.mp hs c hc
  simp only [Bool.or_eq_true, decide_eq_true_eq] at this
  push_neg at this
  exact ⟨this.1.1.1, this.1.1.2⟩

/-- Scanning one encoded field from the start of a field appends the original
field text and proceeds with the remainder, provided the remainder does not
start with a quote. -/
theorem parseAux_field_step (f : List Char) (rest' : List Char) (fields)
    (h : rest'.head? ≠ some '"') :
    parseAux (encodeCSVField f ++ rest') false [] fields = parseAux rest' false f fields := by
  by_cases hs : containsSpecial f
  · simp only [encodeCSVField, if_pos hs]
    have heq : ('"' :: escapeQuotes f ++ ['"']) ++ rest'
        = '"' :: (escapeQuotes f ++ '"' :: rest') := by simp
    rw [heq, parseAux_quote_open, parseAux_quoted f rest' [] fields h]
    simp
  · simp only [encodeCSVField, if_neg hs]
    rw [parseAux_plain f rest' [] fields (no_special_chars (by simpa using hs))]
    simp

/-- `parseCSVLine` inverts `encodeCSVField` on any single field, whatever
characters it contains. -/
theorem parse_encodeField (f : List Char) : parseCSVLine (encodeCSVField f) = .ok [f] := by
  unfold parseCSVLine
  rw [← List.append_nil (encodeCSVField f), parseAux_field_step f [] [] (by simp)]
  rfl

/-- `parseCSVLine` inverts the comma-joined encoding of any non-empty
record. -/
theorem parseAux_encodeBody (rec : List (List Char)) (fields) (h : rec ≠ []) :
    parseAux (encodeBody rec) false [] fields = .ok (fields ++ rec) := by
  induction rec generalizing fields with
  | nil => exact absurd rfl h
  | cons f rec ih =>
    cases rec with
    | nil =>
      show parseAux (encodeCSVField f) false [] fields = _
      rw [← List.append_nil (encodeCSVField f), parseAux_field_step f [] fields (by simp)]
      rfl
    | cons g r =>
      show parseAux (encodeCSVField f ++ ',' :: encodeBody (g :: r)) false [] fields = _
      rw [parseAux_field_step f _ fields (by simp), parseAux_comma,
        ih (fields ++ [f]) (by simp)]
      simp

theorem parse_encodeBody (rec : List (List Char)) (h : rec ≠ []) :
    parseCSVLine (encodeBody rec) = .ok rec := by
  unfold parseCSVLine
  rw [parseAux_encodeBody rec [] h]
  rfl

/-- A non-first tail of the `csvWriter.Write` loop: a leading comma, then the
comma-joined encoding. -/
theorem writeRecordAux_false (rec : List (List Char)) (hne : rec ≠ []) :
    writeRecordAux rec false = ',' :: encodeBody rec ++ ['\n'] := by
  induction rec with
  | nil => exact absurd rfl hne
  | cons f rec ih =>
    cases rec with
    | nil => rfl
    | cons g r =>
      show [','] ++ encodeCSVField f ++ writeRecordAux (g :: r) false = _
      rw [ih (by simp)]
      show ',' :: (encodeCSVField f ++ (',' :: encodeBody (g :: r) ++ ['\n']))
          = ',' :: (encodeBody (f :: g :: r) ++ ['\n'])
      simp [encodeBody]

/-- `writeRecord` is the comma-joined field encoding terminated by a single
newline. -/
theorem writeRecord_eq (rec : List (List Char)) :
    writeRecord rec = encodeBody rec ++ ['\n'] := by
  unfold writeRecord
  cases rec with
  | nil => rfl
  | cons f rec =>
    cases rec with
    | nil => rfl
    | cons g r =>
      show encodeCSVField f ++ writeRecordAux (g :: r) false = _
      rw [writeRecordAux_false _ (by simp)]
      show encodeCSVField f ++ (',' :: encodeBody (g :: r) ++ ['\n']) = _
      simp [encodeBody]

/-- Every successful scan returns strictly more fields than were accumulated:
in particular a successful `parseCSVLine` never returns an empty record. -/
theorem parseAux_ok_length (l : List Char) (inQ : Bool) (field : List Char)
    (fields : List (List Char)) (r : List (List Char))
    (h : parseAux l inQ field fields = .ok r) : fields.length < r.length := by
  induction l, inQ, field, fields using parseAux.induct generalizing r
  all_goals try rename_i ih
  all_goals simp [parseAux, *] at h
  all_goals first
    | (subst h; simp; done)
    | (subst h; simp; omega)
    | (exact ih r h)
    | (have hx := ih r h; simp at hx; omega)

/-- If the scan ends still inside quotes, the parse is the malformed-record
error, whatever was accumulated so far. -/
theorem parseAux_error_of_flag (l : List Char) (inQ : Bool)
    (field : List Char) (fields : List (List Char))
    (h : scanInQuotes l inQ = true) :
    parseAux l inQ field fields = .error "unterminated quoted field" := by
  induction l, inQ using scanInQuotes.induct generalizing field fields with
  | case1 inQ =>
    simp [scanInQuotes] at h
    simp [parseAux, h]
  | case2 =>
    simp [scanInQuotes] at h
  | case3 inQ hn =>
    simp [parseAux, hn]
  | case4 c inQ hc =>
    simp [scanInQuotes, hc] at h
    simp [parseAux, hc, h]
  | case5 rest ih =>
    simp [scanInQuotes] at h
    simp only [parseAux, if_pos rfl]
    exact ih _ _ h
  | case6 c2 rest hc2 ih =>
    simp [scanInQuotes, hc2] at h
    simp [parseAux, hc2]
    exact ih _ _ h
  | case7 c2 rest inQ hn ih =>
    simp [scanInQuotes, hn] at h
    simp [parseAux, hn]
    exact ih _ _ h
  | case8 c c2 rest inQ hc ih =>
    simp [scanInQuotes, hc] at h
    cases inQ <;> simp [parseAux, hc] <;> (try split) <;> exact ih _ _ h

/-- Characters of the escaped field text come from the field or are
quotes. -/
theorem escapeQuotes_mem {c : Char} {t : List Char} (h : c ∈ escapeQuotes t) :
    c ∈ t ∨ c = '"' := by
  induction t with
  | nil => simp [escapeQuotes] at h
  | cons d t ih =>
    by_cases hd : d = '"'
    · subst hd
      simp [escapeQuotes] at h
      rcases h with h | h
      · right; exact h
      · rcases ih h with h2 | h2
        · left; exact List.mem_cons_of_mem _ h2
        · right; exact h2
    · simp [escapeQuotes, hd] at h
      rcases h with h | h
      · left; exact h ▸ List.mem_cons_self _ _
      · rcases ih h with h2 | h2
        · left; exact List.mem_cons_of_mem _ h2
        · right; exact h2

/-- Encoding a newline-free field yields newline-free output. -/
theorem encodeCSVField_no_newline {t : List Char} (h : '\n' ∉ t) :
    '\n' ∉ encodeCSVField t := by
  by_cases hs : containsSpecial t
  · simp only [encodeCSVField, if_pos hs]
    intro hm
    rcases List.mem_cons.mp hm with h1 | h1
    · exact absurd h1 (by decide)
    · rcases List.mem_append.mp h1 with h2 | h2
      · rcases escapeQuotes_mem h2 with h3 | h3
        · exact h h3
        · exact absurd h3 (by decide)
      · simp at h2
  · simp only [encodeCSVField, if_neg hs]
    exact h

/-- Splitting a newline-free line terminated by one newline yields that line
and a final empty component. -/
theorem splitLinesRaw_concat {e : List Char} (h : '\n' ∉ e) :
    splitLinesRaw (e ++ ['\n']) = [e, []] := by
  induction e with
  | nil => rfl
  | cons c e ih =>
    have hc : c ≠ '\n' := fun q => h (q ▸ List.mem_cons_self _ _)
    have hrest : '\n' ∉ e := fun q => h (List.mem_cons_of_mem _ q)
    simp [splitLinesRaw, hc, ih hrest]

/-- An encoded field never ends in a carriage return, so the reader's
trailing-CR strip leaves it unchanged. -/
theorem dropCR_encodeField (t : List Char) : dropCR (encodeCSVField t) = encodeCSVField t := by
  by_cases hs : containsSpecial t
  · simp only [encodeCSVField, if_pos hs]
    simp [dropCR]
  · simp only [encodeCSVField, if_neg hs]
    cases hrev : t.reverse with
    | nil => simp [dropCR, hrev]
    | cons c rest =>
      have hmem : c ∈ t := by
        rw [← List.mem_reverse, hrev]
        exact List.mem_cons_self _ _
      have hs2 : containsSpecial t = false := by simpa using hs
      have := List.any_eq_false.mp hs2 c hmem
      have hc : c ≠ '\r' := by
        intro q
        subst q
        simp at this
      simp [dropCR, hrev, hc]

/-- The physical lines the reader extracts from one encoded single-field
record: exactly the encoded field, provided it contains no newline and its
encoding stays under the scanner's token-size bound. -/
theorem readerLines_single (t : List Char) (h : '\n' ∉ t)
    (hlen : (encodeCSVField t).length < maxScanTokenSize) :
    readerLines (writeRecord [t]) = ([encodeCSVField t], none) := by
  have hw : writeRecord [t] = encodeCSVField t ++ ['\n'] := writeRecord_eq [t]
  rw [hw]
  unfold readerLines scanTokens
  rw [splitLinesRaw_concat (encodeCSVField_no_newline h)]
  have htrim : trimFinalEmptyLine [encodeCSVField t, []] = [encodeCSVField t] := rfl
  rw [htrim]
  have hge : ¬ (encodeCSVField t).length ≥ maxScanTokenSize := by omega
  simp [boundTokens, hge, dropCR_encodeField]

/-- A maximal-size line contains no newline. -/
theorem replicate_no_newline : '\n' ∉ List.replicate maxScanTokenSize 'a' := by
  intro hm
  have := List.eq_of_mem_replicate hm
  exact absurd this (by decide)

theorem replicate_length_ge :
    (List.replicate maxScanTokenSize 'a').length ≥ maxScanTokenSize := by
  rw [List.length_replicate]

theorem boundTokens_replicate :
    boundTokens [List.replicate maxScanTokenSize 'a']
    = ([], some "bufio.Scanner: token too long") := by
  unfold boundTokens
  rw [if_pos replicate_length_ge]

theorem trimFinal_replicate :
    trimFinalEmptyLine [List.replicate maxScanTokenSize 'a', []]
    = [List.replicate maxScanTokenSize 'a'] := rfl

theorem splitLines_replicate :
    splitLinesRaw (List.replicate maxScanTokenSize 'a' ++ ['\n'])
    = [List.replicate maxScanTokenSize 'a', []] :=
  splitLinesRaw_concat replicate_no_newline

/-- The scanner bound cuts off an over-long line: the reader yields no line
and reports `bufio.ErrTooLong`. -/
theorem readerLines_too_long :
    readerLines (List.replicate maxScanTokenSize 'a' ++ ['\n'])
    = ([], some "bufio.Scanner: token too long") := by
  unfold readerLines scanTokens
  rw [splitLines_replicate, trimFinal_replicate, boundTokens_replicate]
  rfl

/-- A scanner failure before the first line surfaces as the first `Read`'s
error. -/
theorem firstRecord_of_err (s : List Char) (e : String)
    (h : readerLines s = ([], some e)) : firstRecord s = .error e := by
  unfold firstRecord
  rw [h]

/-- The scanner bound is part of the read path: a physical line of
`maxScanTokenSize` characters is not tokenized — the first `Read` fails
with `bufio.ErrTooLong` instead. -/
theorem firstRecord_too_long :
    firstRecord (List.replicate maxScanTokenSize 'a' ++ ['\n'])
    = .error "bufio.Scanner: token too long" :=
  firstRecord_of_err _ _ readerLines_too_long

/-- The quoting trigger as a proposition about the field's characters. -/
theorem containsSpecial_iff {f : List Char} :
    containsSpecial f = true ↔ ('"' ∈ f ∨ ',' ∈ f ∨ '\n' ∈ f ∨ '\r' ∈ f) := by
  simp only [containsSpecial, List.any_eq_true, Bool.or_eq_true, decide_eq_true_eq]
  constructor
  · rintro ⟨c, hc, ((h | h) | h) | h⟩
    · exact Or.inl (h ▸ hc)
    · exact Or.inr (Or.inl (h ▸ hc))
    · exact Or.inr (Or.inr (Or.inl (h ▸ hc)))
    · exact Or.inr (Or.inr (Or.inr (h ▸ hc)))
  · rintro (h | h | h | h)
    · exact ⟨'"', h, by decide⟩
    · exact ⟨',', h, by decide⟩
    · exact ⟨'\n', h, by decide⟩
    · exact ⟨'\r', h, by decide⟩

/-- The quote-doubling written with `ReplaceAll` acts character-wise. -/
theorem escapeQuotes_flatMap (f : List Char) :
    escapeQuotes f = f.flatMap (fun c => if c = '"' then ['"', '"'] else [c]) := by
  induction f with
  | nil => rfl
  | cons c f ih =>
    by_cases hc : c = '"' <;> simp [escapeQuotes, hc, ih]

/-- C1 counterexample: the claim includes fields with embedded newlines, but
the read path splits on physical lines first, so the quoted encoding of the
one-character field `"\n"` is cut at its newline and the first `Read` fails
with the malformed-record error instead of returning the field. -/
theorem roundtrip_newline_counterexample :
    firstRecord (writeRecord [['\n']]) = .error "unterminated quoted field" := by decide

/-- C1 (amended): decoding the encoded single-field record `[t]` yields `t`
back as the only field for every `t` free of embedded newlines whose
encoded line stays under the reader's 1MB token-size bound — commas,
double quotes and carriage returns all round-trip; a `t` containing `'\n'`
spans several physical lines and fails to decode, and an encoding of
`maxScanTokenSize` characters or more makes the read fail with
`bufio.ErrTooLong`. -/
theorem roundtrip_single_field (t : List Char) (h : '\n' ∉ t)
    (hlen : (encodeCSVField t).length < maxScanTokenSize) :
    firstRecord (writeRecord [t]) = .ok [t] := by
  unfold firstRecord
  rw [readerLines_single t h hlen]
  exact parse_encodeField t

theorem roundtrip_single_field_witness :
    ('\n' ∉ strL "a,\"b\rc")
    ∧ (encodeCSVField (strL "a,\"b\rc")).length < maxScanTokenSize
    ∧ firstRecord (writeRecord [strL "a,\"b\rc"]) = .ok [strL "a,\"b\rc"] :=
  ⟨by decide, by decide, roundtrip_single_field (strL "a,\"b\rc") (by decide) (by decide)⟩

/-- C5: a field is wrapped in quotes with internal quotes doubled exactly
when it contains a quote, comma, newline or carriage return, and is written
verbatim otherwise; a record is the comma-join of its encoded fields
terminated by a single newline. -/
theorem encode_field_quoting (f : List Char) (rec : List (List Char)) :
    (encodeCSVField f = '"' :: escapeQuotes f ++ ['"'] ↔
      ('"' ∈ f ∨ ',' ∈ f ∨ '\n' ∈ f ∨ '\r' ∈ f))
    ∧ (('"' ∉ f ∧ ',' ∉ f ∧ '\n' ∉ f ∧ '\r' ∉ f) → encodeCSVField f = f)
    ∧ escapeQuotes f = f.flatMap (fun c => if c = '"' then ['"', '"'] else [c])
    ∧ writeRecord rec = encodeBody rec ++ ['\n'] := by
  refine ⟨⟨?_, ?_⟩, ?_, escapeQuotes_flatMap f, writeRecord_eq rec⟩
  · intro he
    by_contra hn
    have hs : containsSpecial f = false := by
      cases hcs : containsSpecial f
      · rfl
      · exact absurd (containsSpecial_iff.mp hcs) hn
    rw [encodeCSVField, if_neg (by simp [hs])] at he
    exact hn (Or.inl (by rw [he]; exact List.mem_cons_self _ _))
  · intro hsp
    rw [encodeCSVField, if_pos (containsSpecial_iff.mpr hsp)]
  · rintro ⟨h1, h2, h3, h4⟩
    have hs : containsSpecial f = false := by
      cases hcs : containsSpecial f
      · rfl
      · rcases containsSpecial_iff.mp hcs with h | h | h | h
        · exact absurd h h1
        · exact absurd h h2
        · exact absurd h h3
        · exact absurd h h4
    rw [encodeCSVField, if_neg (by simp [hs])]

theorem encode_field_quoting_witness :
    encodeCSVField (strL "a,b") = '"' :: escapeQuotes (strL "a,b") ++ ['"']
    ∧ encodeCSVField (strL "ab") = strL "ab" :=
  ⟨(encode_field_quoting (strL "a,b") []).1.mpr (by decide),
   (encode_field_quoting (strL "ab") []).2.1 (by decide)⟩

/-- C6: if the left-to-right scan of a line ends with the inside-quotes flag
still set, decoding that line fails with the malformed-record error instead
of returning a record; quoted fields therefore never continue past the end
of a physical line. -/
theorem unterminated_quote_fails (line : List Char)
    (h : scanInQuotes line false = true) :
    parseCSVLine line = .error "unterminated quoted field" :=
  parseAux_error_of_flag line false [] [] h

theorem unterminated_quote_fails_witness :
    scanInQuotes (strL "a,\"b") false = true
    ∧ parseCSVLine (strL "a,\"b") = .error "unterminated quoted field" :=
  ⟨by decide, unterminated_quote_fails (strL "a,\"b") (by decide)⟩

/-- C9: every successful decode returns at least one field, and the empty
line decodes to the record of exactly one empty field. -/
theorem decode_never_empty :
    (∀ (line : List Char) (r : List (List Char)), parseCSVLine line = .ok r → r ≠ [])
    ∧ parseCSVLine [] = .ok [[]] := by
  constructor
  · intro line r h hr
    have := parseAux_ok_length line false [] [] r h
    rw [hr] at this
    simp at this
  · rfl

theorem decode_never_empty_witness :
    parseCSVLine (strL "x") = .ok [strL "x"] ∧ ([strL "x"] : List (List Char)) ≠ [] :=
  ⟨by decide, decode_never_empty.1 (strL "x") [strL "x"] (by decide)⟩

/-! ### Applier claim theorems -/

/-- C2 counterexample: with header `filename,x,title` the title column index
is 2; the decoded row `a` has 1 field — fewer than the title column index —
yet it is not skipped: a write-caption call with an empty title is made for
`a`. -/
theorem short_row_counterexample :
    applyTitlesLines (fun _ _ => Except.ok ()) (strL "d")
      [strL "filename,x,title", strL "a"]
    = ([(strL "d/a", [])], none) := by decide

/-- C2 (amended): a decoded data row whose field count does not reach the
FILENAME column index is skipped — no write-caption call, no error — and
Apply continues with the remaining rows.  (A row that reaches the filename
column but falls short of the title column is not skipped: it is applied
with an empty title.) -/
theorem short_row_skipped (upsert : List Char → List Char → Except String Unit)
    (dir : List Char) (filenameIdx titleIdx : Nat) (line : List Char)
    (rest : List (List Char)) (record : List (List Char))
    (hp : parseCSVLine line = .ok record) (hlen : record.length ≤ filenameIdx) :
    applyRows upsert dir filenameIdx titleIdx (line :: rest)
    = applyRows upsert dir filenameIdx titleIdx rest := by
  simp [applyRows, hp, hlen]

theorem short_row_skipped_witness :
    parseCSVLine (strL ",x") = .ok [[], strL "x"]
    ∧ ([[], strL "x"] : List (List Char)).length ≤ 5
    ∧ applyRows (fun _ _ => Except.ok ()) (strL "d") 5 1 [strL ",x"]
      = applyRows (fun _ _ => Except.ok ()) (strL "d") 5 1 [] :=
  ⟨by decide, by decide,
   short_row_skipped (fun _ _ => Except.ok ()) (strL "d") 5 1 (strL ",x") []
     [[], strL "x"] (by decide) (by decide)⟩

/-- C8: a row whose filename field is empty after whitespace trimming is
skipped without error and triggers no write-caption call. -/
theorem empty_filename_skipped (upsert : List Char → List Char → Except String Unit)
    (dir : List Char) (filenameIdx titleIdx : Nat) (line : List Char)
    (rest : List (List Char)) (record : List (List Char))
    (hp : parseCSVLine line = .ok record) (hlen : filenameIdx < record.length)
    (hempty : trimSpace (record.getD filenameIdx []) = []) :
    applyRows upsert dir filenameIdx titleIdx (line :: rest)
    = applyRows upsert dir filenameIdx titleIdx rest := by
  have h2 : ¬ record.length ≤ filenameIdx := by omega
  simp only [applyRows, hp]
  rw [if_neg h2, hempty]
  simp

theorem empty_filename_skipped_witness :
    parseCSVLine (strL ",\"some title\"") = .ok [[], strL "some title"]
    ∧ (0 : Nat) < ([[], strL "some title"] : List (List Char)).length
    ∧ trimSpace (([[], strL "some title"] : List (List Char)).getD 0 []) = []
    ∧ applyRows (fun _ _ => Except.ok ()) (strL "d") 0 1 [strL ",\"some title\""]
      = applyRows (fun _ _ => Except.ok ()) (strL "d") 0 1 [] :=
  ⟨by decide, by decide, by decide,
   empty_filename_skipped (fun _ _ => Except.ok ()) (strL "d") 0 1 (strL ",\"some title\"") []
     [[], strL "some title"] (by decide) (by decide) (by decide)⟩

/-- C10: a processed row's write-caption call receives the title field
exactly as decoded — no trimming — while the filename field is
whitespace-trimmed and then resolved against the target directory (used
as-is when absolute). -/
theorem processed_row_call (upsert : List Char → List Char → Except String Unit)
    (dir : List Char) (filenameIdx titleIdx : Nat) (line : List Char)
    (rest : List (List Char)) (record : List (List Char))
    (hp : parseCSVLine line = .ok record) (hlen : filenameIdx < record.length)
    (hne : trimSpace (record.getD filenameIdx []) ≠ []) :
    (applyRows upsert dir filenameIdx titleIdx (line :: rest)).1.head? =
      some (resolvePath dir (trimSpace (record.getD filenameIdx [])),
            if titleIdx < record.length then record.getD titleIdx [] else []) := by
  have h2 : ¬ record.length ≤ filenameIdx := by omega
  simp only [applyRows, hp]
  rw [if_neg h2, if_neg hne]
  cases hu : upsert (resolvePath dir (trimSpace (record.getD filenameIdx [])))
      (if titleIdx < record.length then record.getD titleIdx [] else []) <;>
    simp [hu]

theorem processed_row_call_witness :
    parseCSVLine (strL "a, T ") = .ok [strL "a", strL " T "]
    ∧ (0 : Nat) < ([strL "a", strL " T "] : List (List Char)).length
    ∧ trimSpace (([strL "a", strL " T "] : List (List Char)).getD 0 []) ≠ []
    ∧ (applyRows (fun _ _ => Except.ok ()) (strL "d") 0 1 [strL "a, T "]).1.head?
      = some (resolvePath (strL "d") (trimSpace (([strL "a", strL " T "] : List (List Char)).getD 0 [])),
              if 1 < ([strL "a", strL " T "] : List (List Char)).length
              then ([strL "a", strL " T "] : List (List Char)).getD 1 [] else []) :=
  ⟨by decide, by decide, by decide,
   processed_row_call (fun _ _ => Except.ok ()) (strL "d") 0 1 (strL "a, T ") []
     [strL "a", strL " T "] (by decide) (by decide) (by decide)⟩

/-- The row loop treats a table rendered under header order
`title,filename` exactly as the same table rendered under
`filename,title`. -/
theorem applyRows_swap (upsert : List Char → List Char → Except String Unit)
    (dir : List Char) (rows : List (List Char × List Char)) :
    applyRows upsert dir 1 0 (rows.map (fun p => encodeBody [p.2, p.1]))
    = applyRows upsert dir 0 1 (rows.map (fun p => encodeBody [p.1, p.2])) := by
  induction rows with
  | nil => rfl
  | cons p rows ih =>
    obtain ⟨f, t⟩ := p
    have h1 : parseCSVLine (encodeBody [t, f]) = .ok [t, f] := parse_encodeBody _ (by simp)
    have h2 : parseCSVLine (encodeBody [f, t]) = .ok [f, t] := parse_encodeBody _ (by simp)
    by_cases hf : trimSpace f = []
    · simp [applyRows, h1, h2, hf]
      exact ih
    · simp [applyRows, h1, h2, hf]
      cases hu : upsert (resolvePath dir (trimSpace f)) t <;> simp [hu, ih]

/-- C7: the filename and title columns are resolved from the header by
case-insensitive, whitespace-trimmed name match, so column order (and case
and padding) in the header is irrelevant — a table with header
`title,filename` is applied identically to the same table with header
`filename,title` — and a header missing either column name makes Apply fail
with the missing-required-columns error before any row is processed. -/
theorem apply_header_independence :
    (∀ (upsert : List Char → List Char → Except String Unit) (dir : List Char)
       (rows : List (List Char × List Char)),
       applyTitlesLines upsert dir
         (strL "title,filename" :: rows.map (fun p => encodeBody [p.2, p.1]))
       = applyTitlesLines upsert dir
         (strL "filename,title" :: rows.map (fun p => encodeBody [p.1, p.2])))
    ∧ (∀ (upsert : List Char → List Char → Except String Unit) (dir : List Char)
       (rest : List (List Char)),
       applyTitlesLines upsert dir (strL " Title , FILENAME " :: rest)
       = applyTitlesLines upsert dir (strL "title,filename" :: rest))
    ∧ (∀ (upsert : List Char → List Char → Except String Unit) (dir : List Char)
       (headerLine : List Char) (rest : List (List Char)) (header : List (List Char)),
       parseCSVLine headerLine = .ok header →
       (headerIndex header (strL "filename") = none ∨ headerIndex header (strL "title") = none) →
       applyTitlesLines upsert dir (headerLine :: rest)
       = ([], some "csv must include filename and title columns")) := by
  refine ⟨?_, ?_, ?_⟩
  · intro upsert dir rows
    show applyRows upsert dir 1 0 _ = applyRows upsert dir 0 1 _
    exact applyRows_swap upsert dir rows
  · intro upsert dir rest
    rfl
  · intro upsert dir headerLine rest header hp hmiss
    simp only [applyTitlesLines]
    rw [hp]
    rcases hmiss with h | h
    · simp [h]
    · cases hf : headerIndex header (strL "filename") <;> simp [h, hf]

theorem apply_header_independence_witness :
    parseCSVLine (strL "a,b") = .ok [strL "a", strL "b"]
    ∧ applyTitlesLines (fun _ _ => Except.ok ()) (strL "d") [strL "a,b"]
      = ([], some "csv must include filename and title columns") :=
  ⟨by decide,
   apply_header_independence.2.2 (fun _ _ => Except.ok ()) (strL "d") (strL "a,b") []
     [strL "a", strL "b"] (by decide) (Or.inl (by decide))⟩

/-! ### Collaborator and scanner claim theorems -/

/-- Is a collaborator result a success? -/
def exceptOk {α : Type} : Except String α → Bool
  | .ok _ => true
  | .error _ => false

/-- The payload of a successful collaborator result, with a default. -/
def exceptValue {α : Type} (d : α) : Except String α → α
  | .ok a => a
  | .error _ => d

/-- C3 counterexample: the underlying EXIF library reports an absent EXIF
block as an error from `sl.Exif()` (`exif.ErrNoExif`), and `readTitle`
propagates that error even though the JPEG container itself parsed — so an
error can arise from a file that is not a structurally invalid JPEG,
contradicting "empty text and no error whenever ... the EXIF block ... is
absent". -/
theorem readTitle_exif_error_counterexample :
    readTitle ⟨Except.ok (), Except.error "no exif data", Except.ok []⟩
    = Except.error "parse EXIF: no exif data" := by decide

/-- C3 (amended): `readTitle` produces empty text and no error when the
caption tag lookup fails, finds no results, or the first result's value is
unreadable (and, per the enumerated shapes below its type switch, when the
value has an unhandled shape); but it propagates an error both when the
container fails to parse and when the EXIF block fails to parse or is
absent. -/
theorem readTitle_absence_tolerance (j : JpegFile) :
    (∀ e, j.container = Except.error e → readTitle j = Except.error ("parse JPEG: " ++ e))
    ∧ (∀ e, j.container = Except.ok () → j.exifRoot = Except.error e →
        readTitle j = Except.error ("parse EXIF: " ++ e))
    ∧ (j.container = Except.ok () → j.exifRoot = Except.ok () →
        ((∃ e, j.findTag = Except.error e) ∨ j.findTag = Except.ok []
          ∨ (∃ e rest, j.findTag = Except.ok (Except.error e :: rest))
          ∨ (∃ rest, j.findTag = Except.ok (Except.ok .otherKind :: rest))
          ∨ (∃ rest, j.findTag = Except.ok (Except.ok (.strList []) :: rest))) →
        readTitle j = Except.ok []) := by
  obtain ⟨c, ex, ft⟩ := j
  refine ⟨?_, ?_, ?_⟩
  · rintro e rfl
    rfl
  · rintro e rfl rfl
    rfl
  · rintro rfl rfl h
    rcases h with ⟨e, rfl⟩ | rfl | ⟨e, rest, rfl⟩ | ⟨rest, rfl⟩ | ⟨rest, rfl⟩ <;> rfl

theorem readTitle_absence_tolerance_witness :
    readTitle ⟨Except.ok (), Except.ok (), Except.error "no tag"⟩ = Except.ok [] :=
  (readTitle_absence_tolerance ⟨Except.ok (), Except.ok (), Except.error "no tag"⟩).2.2
    rfl rfl (Or.inl ⟨"no tag", rfl⟩)

/-- If the scan loop succeeds, its rows are exactly one encoded row per
qualifying entry, in listing order. -/
theorem scanRows_ok_shape (readCap : List Char → Except String (List Char))
    (absDir : List Char) (entries : List DirEntry) (rows : List Char)
    (h : scanRows readCap absDir entries = .ok rows) :
    rows = (entries.filter (fun e => qualifies e)).flatMap
        (fun e => writeRecord [e.name, exceptValue [] (readCap (filepathJoin absDir e.name))]) := by
  induction entries generalizing rows with
  | nil =>
    simp only [scanRows] at h
    cases h
    rfl
  | cons e rest ih =>
    cases hd : (e.dirFlag || !e.regular) with
    | true =>
      have hq : qualifies e = false := by
        simp only [Bool.or_eq_true, Bool.not_eq_true'] at hd
        rcases hd with h1 | h1 <;> simp [qualifies, h1]
      simp only [scanRows, hd, if_true] at h
      simp [List.filter_cons, hq, ih rows h]
    | false =>
      cases hc : (equalFold e.name csvFilename || !isJPEG e.name) with
      | true =>
        have hq : qualifies e = false := by
          simp only [Bool.or_eq_true, Bool.not_eq_true'] at hc
          rcases hc with h1 | h1 <;> simp [qualifies, h1]
        simp only [scanRows, hd, hc] at h
        simp at h
        simp [List.filter_cons, hq, ih rows h]
      | false =>
        have hq : qualifies e = true := by
          simp only [Bool.or_eq_false_iff, Bool.not_eq_false'] at hd hc
          simp [qualifies, hd.1, hd.2, hc.1, hc.2]
        simp only [scanRows, hd, hc] at h
        simp at h
        cases hcap2 : readCap (filepathJoin absDir e.name) with
        | error err => simp [hcap2] at h
        | ok title =>
          rw [hcap2] at h
          cases hs : scanRows readCap absDir rest with
          | error err => simp [hs, Except.map] at h
          | ok tail =>
            rw [hs] at h
            simp only [Except.map] at h
            cases h
            simp [List.filter_cons, hq, hcap2, exceptValue, ih tail hs]

/-- C4: when a scan completes without error, the sidecar content is the
header row followed by exactly one row (name, caption) per qualifying
entry — regular, not the sidecar file itself (case-insensitively),
extension `.jpg`/`.jpeg` case-insensitively — in directory-listing order,
all other entries excluded. -/
theorem scan_sidecar_content (readCap : List Char → Except String (List Char))
    (absDir : List Char) (entries : List DirEntry) (content : List Char)
    (h : scanDirectory readCap absDir entries = .ok content) :
    content = writeRecord [strL "filename", strL "title"]
        ++ (entries.filter (fun e => qualifies e)).flatMap
             (fun e => writeRecord [e.name, exceptValue [] (readCap (filepathJoin absDir e.name))]) := by
  unfold scanDirectory at h
  cases hs : scanRows readCap absDir entries with
  | error err => simp [hs, Except.map] at h
  | ok rows =>
    rw [hs] at h
    simp only [Except.map] at h
    cases h
    rw [scanRows_ok_shape readCap absDir entries rows hs]

theorem scan_sidecar_content_witness :
    scanDirectory
        (fun p => if p = strL "/d/a.JPG" then Except.ok (strL "Sun,set") else Except.ok [])
        (strL "/d")
        [⟨strL "a.JPG", false, true⟩, ⟨strL "notes.txt", false, true⟩,
         ⟨strL "sub", true, false⟩, ⟨strL "BILDER.CSV", false, true⟩, ⟨strL "b.jpeg", false, true⟩]
      = .ok (strL "filename,title\na.JPG,\"Sun,set\"\nb.jpeg,\n")
    ∧ strL "filename,title\na.JPG,\"Sun,set\"\nb.jpeg,\n"
      = writeRecord [strL "filename", strL "title"]
        ++ (([⟨strL "a.JPG", false, true⟩, ⟨strL "notes.txt", false, true⟩,
          ⟨strL "sub", true, false⟩, ⟨strL "BILDER.CSV", false, true⟩,
          ⟨strL "b.jpeg", false, true⟩] : List DirEntry).filter (fun e => qualifies e)).flatMap
             (fun e => writeRecord [e.name,
               exceptValue [] ((fun p => if p = strL "/d/a.JPG" then Except.ok (strL "Sun,set")
                 else Except.ok []) (filepathJoin (strL "/d") e.name))]) :=
  ⟨by decide,
   scan_sidecar_content
     (fun p => if p = strL "/d/a.JPG" then Except.ok (strL "Sun,set") else Except.ok [])
     (strL "/d")
     [⟨strL "a.JPG", false, true⟩, ⟨strL "notes.txt", false, true⟩,
      ⟨strL "sub", true, false⟩, ⟨strL "BILDER.CSV", false, true⟩, ⟨strL "b.jpeg", false, true⟩]
     (strL "filename,title\na.JPG,\"Sun,set\"\nb.jpeg,\n")
     (by decide)⟩
